import Mathlib

/-!
Verification of the sauropod signed-session-token subsystem
(`pysauropod/server/session.py` and `pysauropod/server/credentials.py`).

The Python source is shallowly embedded: Python 2 byte strings (`str`)
are `List Nat` with byte values below 256, machine words are `Nat`
reduced modulo `2 ^ 32`, the wall clock is an explicit integer
parameter, and code paths that raise an uncaught Python exception
return `Except.error`.

The standard-library calls made by the source are embedded by their
documented semantics: `hashlib.md5` / `hashlib.sha1` are the real MD5
and SHA-1 compression pipelines, `hmac.new` is RFC 2104 HMAC (note
that Python 2's `hmac.new` defaults to MD5 when no `digestmod` is
given, which is what `session.py` relies on for token signatures),
and `base64.urlsafe_b64encode` / `urlsafe_b64decode` are base64 with
the URL-safe alphabet.
-/

set_option maxRecDepth 10000

namespace Sauropod

/-- A Python 2 byte string: a list of byte values. -/
abbrev Bytes := List Nat

/-- Bytes of a Lean string literal, used for the ASCII constants in the source. -/
def strBytes (s : String) : Bytes := s.data.map Char.toNat

/-! ## 32-bit word helpers -/

/-- Left rotation of a 32-bit word (inputs are reduced modulo `2 ^ 32` first). -/
def rotl32 (x n : Nat) : Nat :=
  (((x % 4294967296) <<< n) % 4294967296) + ((x % 4294967296) >>> (32 - n))

/-- Split a byte string into 64-byte blocks (fuel-driven so that it reduces
in the kernel; the wrapper supplies enough fuel, since every step consumes
at least one byte). -/
def chunks64Aux : Nat → Bytes → List Bytes
  | _, [] => []
  | 0, _ :: _ => []
  | fuel + 1, b :: rest => ((b :: rest).take 64) :: chunks64Aux fuel ((b :: rest).drop 64)

/-- Split a byte string into 64-byte blocks. -/
def chunks64 (l : Bytes) : List Bytes := chunks64Aux l.length l

/-- The sixteen little-endian 32-bit words of a 64-byte block. -/
def leWords (block : Bytes) : List Nat :=
  (List.range 16).map fun i =>
    block.getD (4 * i) 0 % 256 + block.getD (4 * i + 1) 0 % 256 * 256 +
    block.getD (4 * i + 2) 0 % 256 * 65536 + block.getD (4 * i + 3) 0 % 256 * 16777216

/-- The sixteen big-endian 32-bit words of a 64-byte block. -/
def beWords (block : Bytes) : List Nat :=
  (List.range 16).map fun i =>
    block.getD (4 * i) 0 % 256 * 16777216 + block.getD (4 * i + 1) 0 % 256 * 65536 +
    block.getD (4 * i + 2) 0 % 256 * 256 + block.getD (4 * i + 3) 0 % 256

/-- A 32-bit word as four little-endian bytes. -/
def bytesLE4 (w : Nat) : Bytes :=
  [w % 256, (w >>> 8) % 256, (w >>> 16) % 256, (w >>> 24) % 256]

/-- A 32-bit word as four big-endian bytes. -/
def bytesBE4 (w : Nat) : Bytes :=
  [(w >>> 24) % 256, (w >>> 16) % 256, (w >>> 8) % 256, w % 256]

/-- A 64-bit quantity as eight little-endian bytes (MD5 length field). -/
def bytesLE8 (n : Nat) : Bytes := (List.range 8).map fun i => (n >>> (8 * i)) % 256

/-- A 64-bit quantity as eight big-endian bytes (SHA-1 length field). -/
def bytesBE8 (n : Nat) : Bytes := (List.range 8).map fun i => (n >>> (8 * (7 - i))) % 256

/-- Merkle–Damgård padding: a 0x80 byte, zeros to 56 mod 64, then the length field. -/
def mdZeros (l : Nat) : Nat := (119 - l % 64) % 64

/-! ## MD5 (RFC 1321) -/

/-- The 64 MD5 round constants. -/
def md5K : List Nat :=
  [0xd76aa478, 0xe8c7b756, 0x242070db, 0xc1bdceee,
   0xf57c0faf, 0x4787c62a, 0xa8304613, 0xfd469501,
   0x698098d8, 0x8b44f7af, 0xffff5bb1, 0x895cd7be,
   0x6b901122, 0xfd987193, 0xa679438e, 0x49b40821,
   0xf61e2562, 0xc040b340, 0x265e5a51, 0xe9b6c7aa,
   0xd62f105d, 0x02441453, 0xd8a1e681, 0xe7d3fbc8,
   0x21e1cde6, 0xc33707d6, 0xf4d50d87, 0x455a14ed,
   0xa9e3e905, 0xfcefa3f8, 0x676f02d9, 0x8d2a4c8a,
   0xfffa3942, 0x8771f681, 0x6d9d6122, 0xfde5380c,
   0xa4beea44, 0x4bdecfa9, 0xf6bb4b60, 0xbebfbc70,
   0x289b7ec6, 0xeaa127fa, 0xd4ef3085, 0x04881d05,
   0xd9d4d039, 0xe6db99e5, 0x1fa27cf8, 0xc4ac5665,
   0xf4292244, 0x432aff97, 0xab9423a7, 0xfc93a039,
   0x655b59c3, 0x8f0ccc92, 0xffeff47d, 0x85845dd1,
   0x6fa87e4f, 0xfe2ce6e0, 0xa3014314, 0x4e0811a1,
   0xf7537e82, 0xbd3af235, 0x2ad7d2bb, 0xeb86d391]

/-- The 64 MD5 per-round rotation amounts. -/
def md5S : List Nat :=
  [7, 12, 17, 22, 7, 12, 17, 22, 7, 12, 17, 22, 7, 12, 17, 22,
   5, 9, 14, 20, 5, 9, 14, 20, 5, 9, 14, 20, 5, 9, 14, 20,
   4, 11, 16, 23, 4, 11, 16, 23, 4, 11, 16, 23, 4, 11, 16, 23,
   6, 10, 15, 21, 6, 10, 15, 21, 6, 10, 15, 21, 6, 10, 15, 21]

/-- The MD5 round function for round `i`. -/
def md5F (i b c d : Nat) : Nat :=
  if i < 16 then (b &&& c) ||| ((b ^^^ 0xffffffff) &&& d)
  else if i < 32 then (d &&& b) ||| ((d ^^^ 0xffffffff) &&& c)
  else if i < 48 then b ^^^ c ^^^ d
  else c ^^^ (b ||| (d ^^^ 0xffffffff))

/-- The MD5 message-word index for round `i`. -/
def md5G (i : Nat) : Nat :=
  if i < 16 then i
  else if i < 32 then (5 * i + 1) % 16
  else if i < 48 then (3 * i + 5) % 16
  else (7 * i) % 16

/-- One MD5 round applied to the state `(a, b, c, d)`. -/
def md5Step (M : List Nat) (st : Nat × Nat × Nat × Nat) (i : Nat) : Nat × Nat × Nat × Nat :=
  let a := st.1
  let b := st.2.1
  let c := st.2.2.1
  let d := st.2.2.2
  let f := (md5F i b c d + a + md5K.getD i 0 + M.getD (md5G i) 0) % 4294967296
  (d, (b + rotl32 f (md5S.getD i 0)) % 4294967296, b, c)

/-- The MD5 compression function on one 64-byte block. -/
def md5Block (st : Nat × Nat × Nat × Nat) (block : Bytes) : Nat × Nat × Nat × Nat :=
  let r := (List.range 64).foldl (md5Step (leWords block)) st
  ((st.1 + r.1) % 4294967296, (st.2.1 + r.2.1) % 4294967296,
   (st.2.2.1 + r.2.2.1) % 4294967296, (st.2.2.2 + r.2.2.2) % 4294967296)

/-- MD5 of a byte string, as its 16 digest bytes. -/
def md5 (msg : Bytes) : Bytes :=
  let padded := msg ++ 128 :: List.replicate (mdZeros msg.length) 0 ++ bytesLE8 (8 * msg.length)
  let st := (chunks64 padded).foldl md5Block (0x67452301, 0xefcdab89, 0x98badcfe, 0x10325476)
  bytesLE4 st.1 ++ bytesLE4 st.2.1 ++ bytesLE4 st.2.2.1 ++ bytesLE4 st.2.2.2

/-! ## SHA-1 (RFC 3174) -/

/-- The SHA-1 round function and constant for round `i`. -/
def sha1FK (i b c d : Nat) : Nat × Nat :=
  if i < 20 then ((b &&& c) ||| ((b ^^^ 0xffffffff) &&& d), 0x5a827999)
  else if i < 40 then (b ^^^ c ^^^ d, 0x6ed9eba1)
  else if i < 60 then ((b &&& c) ||| (b &&& d) ||| (c &&& d), 0x8f1bbcdc)
  else (b ^^^ c ^^^ d, 0xca62c1d6)

/-- Extend the sixteen message words to the eighty-word SHA-1 schedule. -/
def sha1Sched (ws : List Nat) : List Nat :=
  (List.range 64).foldl
    (fun acc i =>
      acc ++ [rotl32 (acc.getD (i + 13) 0 ^^^ acc.getD (i + 8) 0 ^^^
                      acc.getD (i + 2) 0 ^^^ acc.getD i 0) 1])
    ws

/-- One SHA-1 round applied to the state `(a, b, c, d, e)`. -/
def sha1Step (W : List Nat) (st : Nat × Nat × Nat × Nat × Nat) (i : Nat) :
    Nat × Nat × Nat × Nat × Nat :=
  let a := st.1
  let b := st.2.1
  let c := st.2.2.1
  let d := st.2.2.2.1
  let e := st.2.2.2.2
  let fk := sha1FK i b c d
  ((rotl32 a 5 + fk.1 + e + fk.2 + W.getD i 0) % 4294967296, a, rotl32 b 30, c, d)

/-- The SHA-1 compression function on one 64-byte block. -/
def sha1Block (st : Nat × Nat × Nat × Nat × Nat) (block : Bytes) :
    Nat × Nat × Nat × Nat × Nat :=
  let r := (List.range 80).foldl (sha1Step (sha1Sched (beWords block))) st
  ((st.1 + r.1) % 4294967296, (st.2.1 + r.2.1) % 4294967296,
   (st.2.2.1 + r.2.2.1) % 4294967296, (st.2.2.2.1 + r.2.2.2.1) % 4294967296,
   (st.2.2.2.2 + r.2.2.2.2) % 4294967296)

/-- The SHA-1 digest bytes of a final state. -/
def sha1Out (st : Nat × Nat × Nat × Nat × Nat) : Bytes :=
  bytesBE4 st.1 ++ bytesBE4 st.2.1 ++ bytesBE4 st.2.2.1 ++
  bytesBE4 st.2.2.2.1 ++ bytesBE4 st.2.2.2.2

/-- SHA-1 of a byte string, as its 20 digest bytes. -/
def sha1 (msg : Bytes) : Bytes :=
  let padded := msg ++ 128 :: List.replicate (mdZeros msg.length) 0 ++ bytesBE8 (8 * msg.length)
  sha1Out ((chunks64 padded).foldl sha1Block
    (0x67452301, 0xefcdab89, 0x98badcfe, 0x10325476, 0xc3d2e1f0))

/-- MD5 known-answer test (RFC 1321 appendix): the digest of "abc". -/
theorem md5_kat_abc :
    md5 (strBytes "abc") =
      [0x90, 0x01, 0x50, 0x98, 0x3c, 0xd2, 0x4f, 0xb0,
       0xd6, 0x96, 0x3f, 0x7d, 0x28, 0xe1, 0x7f, 0x72] := by decide

/-- SHA-1 known-answer test (RFC 3174): the digest of "abc". -/
theorem sha1_kat_abc :
    sha1 (strBytes "abc") =
      [0xa9, 0x99, 0x3e, 0x36, 0x47, 0x06, 0x81, 0x6a, 0xba, 0x3e,
       0x25, 0x71, 0x78, 0x50, 0xc2, 0x6c, 0x9c, 0xd0, 0xd8, 0x9d] := by decide

/-! ## HMAC (RFC 2104), as implemented by Python 2's `hmac.new`

`hmac.new(key, msg)` with no `digestmod` uses MD5 (the Python 2 default);
`hmac.new(key, msg, hashlib.sha1)` uses SHA-1.  Both hashes have a 64-byte
block size; a key longer than the block is first hashed, then the key is
zero-padded to the block size. -/

/-- Generic HMAC over a hash function with 64-byte blocks. -/
def hmacWith (H : Bytes → Bytes) (key msg : Bytes) : Bytes :=
  let k0 := if 64 < key.length then H key else key
  let kp := k0 ++ List.replicate (64 - k0.length) 0
  H ((kp.map fun b => (b % 256) ^^^ 0x5c) ++ H ((kp.map fun b => (b % 256) ^^^ 0x36) ++ msg))

/-- `hmac.new(key, msg).digest()` in Python 2: HMAC-MD5. -/
def hmacMd5 (key msg : Bytes) : Bytes := hmacWith md5 key msg

/-- `hmac.new(key, msg, hashlib.sha1).digest()`: HMAC-SHA1. -/
def hmacSha1 (key msg : Bytes) : Bytes := hmacWith sha1 key msg

/-- HMAC-MD5 known-answer test (RFC 2202 test case 2). -/
theorem hmac_md5_kat :
    hmacMd5 (strBytes "Jefe") (strBytes "what do ya want for nothing?") =
      [0x75, 0x0c, 0x78, 0x3e, 0x6a, 0xb0, 0xb5, 0x03,
       0xea, 0xa8, 0x6e, 0x31, 0x0a, 0x5d, 0xb7, 0x38] := by decide

/-- HMAC-SHA1 known-answer test (RFC 2202 test case 2). -/
theorem hmac_sha1_kat :
    hmacSha1 (strBytes "Jefe") (strBytes "what do ya want for nothing?") =
      [0xef, 0xfc, 0xdf, 0x6a, 0xe5, 0xeb, 0x2f, 0xa2, 0xd2, 0x74,
       0x16, 0xd5, 0xf1, 0x84, 0xdf, 0x9c, 0x25, 0x9a, 0x7c, 0x79] := by decide

/-! ## HKDF (RFC 5869), from `session.py` -/

/-- `HKDF_extract(salt, IKM)`: one HMAC-SHA1 keyed by the salt. -/
def HKDF_extract (salt IKM : Bytes) : Bytes := hmacSha1 salt IKM

/-- The iterated block `T[i]` of HKDF-Expand: `T[0]` is empty and
`T[i] = HMAC-SHA1(PRK, T[i-1] ++ info ++ chr(i))`, matching the loop
variable update in `HKDF_expand`. -/
def HKDF_T (PRK info : Bytes) : Nat → Bytes
  | 0 => []
  | i + 1 => hmacSha1 PRK (HKDF_T PRK info i ++ info ++ [i + 1])

/-- `HKDF_expand(PRK, info, L)`. The source computes `N = ceil(L / 20)`,
asserts `N <= 255` (`none` models the `AssertionError` escaping the call),
then concatenates `T[1..N]` and truncates to `L` bytes.  The source takes
the ceiling in floating point, which is exact for every `L` small enough to
pass the assertion, so the Nat ceiling `(L + 19) / 20` is faithful. -/
def HKDF_expand (PRK info : Bytes) (L : Nat) : Option Bytes :=
  let N := (L + 19) / 20
  if N ≤ 255 then
    some ((((List.range N).map fun i => HKDF_T PRK info (i + 1)).flatten).take L)
  else none

/-! ## base64url, as used via `base64.urlsafe_b64encode` / `urlsafe_b64decode`

The encoder is total and canonical.  The decoder accepts well-formed padded
base64url; Python 2's `binascii` is laxer on malformed input (it skips
non-alphabet bytes), but in `get_session_data` the decoder runs only on
strings that carry a valid signature, and every theorem below reaches it
only on canonical encoder output. -/

/-- The URL-safe base64 alphabet as byte values. -/
def b64alpha : Bytes :=
  strBytes "ABCDEFGHIJKLMNOPQRSTUVWXYZabcdefghijklmnopqrstuvwxyz0123456789" ++ [45, 95]

/-- The alphabet byte for a 6-bit value. -/
def b64char (n : Nat) : Nat := b64alpha.getD n 65

/-- The 6-bit value of an alphabet byte. -/
def b64val (c : Nat) : Option Nat :=
  if 65 ≤ c ∧ c ≤ 90 then some (c - 65)
  else if 97 ≤ c ∧ c ≤ 122 then some (c - 71)
  else if 48 ≤ c ∧ c ≤ 57 then some (c + 4)
  else if c = 45 then some 62
  else if c = 95 then some 63
  else none

/-- `base64.urlsafe_b64encode`. -/
def b64encode : Bytes → Bytes
  | [] => []
  | [b1] =>
    let x := b1 % 256
    [b64char (x / 4), b64char (x % 4 * 16), 61, 61]
  | [b1, b2] =>
    let x := b1 % 256 * 256 + b2 % 256
    [b64char (x / 1024), b64char (x / 16 % 64), b64char (x % 16 * 4), 61]
  | b1 :: b2 :: b3 :: rest =>
    let x := b1 % 256 * 65536 + b2 % 256 * 256 + b3 % 256
    b64char (x / 262144) :: b64char (x / 4096 % 64) :: b64char (x / 64 % 64) ::
      b64char (x % 64) :: b64encode rest

/-- `base64.urlsafe_b64decode` on well-formed input (`none` models the
decode error raised on malformed input). -/
def b64decode : Bytes → Option Bytes
  | [] => some []
  | c1 :: c2 :: c3 :: c4 :: rest =>
    match b64val c1, b64val c2 with
    | some s1, some s2 =>
      if c3 = 61 ∧ c4 = 61 ∧ rest = [] then
        some [s1 * 4 + s2 / 16]
      else if c4 = 61 ∧ rest = [] then
        match b64val c3 with
        | some s3 => some [s1 * 4 + s2 / 16, s2 % 16 * 16 + s3 / 4]
        | none => none
      else
        match b64val c3, b64val c4 with
        | some s3, some s4 =>
          match b64decode rest with
          | some tail => some ((s1 * 4 + s2 / 16) :: (s2 % 16 * 16 + s3 / 4) ::
                               (s3 % 4 * 64 + s4) :: tail)
          | none => none
        | _, _ => none
    | _, _ => none
  | _ => none

/-! ## Python `hex()` and `int(_, 16)` -/

/-- The lowercase hex digit byte for a value below 16. -/
def hexDigit (m : Nat) : Nat := if m < 10 then 48 + m else 87 + m

/-- Hex digits of a positive number, most significant first (fuel-driven so
that it reduces in the kernel; a fuel of `n` is always enough since the
quotient shrinks at every step). -/
def hexAux : Nat → Nat → Bytes
  | 0, _ => []
  | fuel + 1, n => if n = 0 then [] else hexAux fuel (n / 16) ++ [hexDigit (n % 16)]

/-- `hex(t)[2:]` as produced in `new_session`: the lowercase hex digits of
`t` with no prefix, no padding and no long suffix (the code strips both). -/
def hexBytes (n : Nat) : Bytes := if n = 0 then [48] else hexAux n n

/-- The value of a hex digit byte (either case), as accepted by `int(_, 16)`. -/
def hexVal (b : Nat) : Option Nat :=
  if 48 ≤ b ∧ b ≤ 57 then some (b - 48)
  else if 97 ≤ b ∧ b ≤ 102 then some (b - 87)
  else if 65 ≤ b ∧ b ≤ 70 then some (b - 55)
  else none

/-- One step of the most-significant-first hex accumulator. -/
def hexStep (acc : Option Nat) (b : Nat) : Option Nat :=
  match acc, hexVal b with
  | some a, some v => some (16 * a + v)
  | _, _ => none

/-- The value of a string of hex digits, or `none` if any byte is not a
hex digit. -/
def hexDigitsVal (s : Bytes) : Option Nat := s.foldl hexStep (some 0)

/-- The byte values Python's `int()` treats as whitespace. -/
def isPySpace (b : Nat) : Bool := b = 32 ∨ b = 9 ∨ b = 10 ∨ b = 13 ∨ b = 11 ∨ b = 12

/-- Strip leading and trailing whitespace, as `int()` does. -/
def stripWs (s : Bytes) : Bytes :=
  (((s.dropWhile isPySpace).reverse.dropWhile isPySpace)).reverse

/-- Strip an optional sign, returning whether the value is negated. -/
def pySign (s : Bytes) : Bool × Bytes :=
  match s with
  | b :: r => if b = 45 then (true, r) else if b = 43 then (false, r) else (false, s)
  | [] => (false, [])

/-- Strip an optional `0x` / `0X` prefix, as `int(_, 16)` does. -/
def pyHexPrefix (s : Bytes) : Bytes :=
  match s with
  | b1 :: b2 :: r => if b1 = 48 ∧ (b2 = 120 ∨ b2 = 88) then r else s
  | _ => s

/-- Strip an optional trailing `L` / `l` (accepted by the Python 2 long
parser; plain `int(_, 16)` accepts it only on overflow into long, and in
every place this laxness matters the Python code converts the resulting
`ValueError` into the same rejection this model produces). -/
def pyDropL (s : Bytes) : Bytes :=
  if s.getLast? = some 76 ∨ s.getLast? = some 108 then s.dropLast else s

/-- `int(s, 16)`: optional surrounding whitespace, optional sign, optional
`0x` prefix, then at least one hex digit.  `none` models the `ValueError`. -/
def pyIntHex (s : Bytes) : Option Int :=
  if pyDropL (pyHexPrefix (pySign (stripWs s)).2) = [] then none
  else
    match hexDigitsVal (pyDropL (pyHexPrefix (pySign (stripWs s)).2)) with
    | some v => some (if (pySign (stripWs s)).1 then -(v : Int) else (v : Int))
    | none => none

/-! ## Python string splitting -/

/-- Split at the last occurrence of `:` (byte 58), if any: the recursive
step prefers a split found in the tail. -/
def splitLastColon : Bytes → Option (Bytes × Bytes)
  | [] => none
  | b :: rest =>
    match splitLastColon rest with
    | some (x, y) => some (b :: x, y)
    | none => if b = 58 then some ([], rest) else none

/-- `s.rsplit(":", 2)` followed by unpacking into exactly three names:
`some` iff the string has at least two colons, in which case the middle and
last parts are colon-free and the first part keeps any remaining colons. -/
def pyRsplit2 (s : Bytes) : Option (Bytes × Bytes × Bytes) :=
  match splitLastColon s with
  | none => none
  | some (a, c) =>
    match splitLastColon a with
    | none => none
    | some (x, y) => some (x, y, c)

/-- Split at the first occurrence of `:` (byte 58), if any. -/
def splitFirstColon : Bytes → Option (Bytes × Bytes)
  | [] => none
  | b :: rest =>
    if b = 58 then some ([], rest)
    else
      match splitFirstColon rest with
      | some (x, y) => some (b :: x, y)
      | none => none

/-- `s.split(":", 2)` followed by unpacking into exactly three names:
`some` iff the string has at least two colons, in which case the last part
keeps any remaining colons. -/
def pySplitLeft2 (s : Bytes) : Option (Bytes × Bytes × Bytes) :=
  match splitFirstColon s with
  | none => none
  | some (a, r) =>
    match splitFirstColon r with
    | none => none
    | some (b, c) => some (a, b, c)

/-! ## UTF-8 validation

`userid.decode("utf8")` succeeds exactly on well-formed UTF-8;
the decoded text is represented by its byte sequence, so decoding is the
identity on valid input and an uncaught `UnicodeDecodeError` otherwise.
(The validator is strict RFC 3629; Python 2's decoder is no stricter on any
byte below 0x80, which is all the theorems below instantiate.) -/

/-- State-machine UTF-8 validation: `need` continuation bytes are still
expected, the next one constrained to `[lo, hi]`. -/
def utf8Aux : Bytes → Nat → Nat → Nat → Bool
  | [], need, _, _ => need == 0
  | b :: rest, 0, _, _ =>
    if b ≤ 127 then utf8Aux rest 0 0 0
    else if b ≤ 193 then false
    else if b ≤ 223 then utf8Aux rest 1 128 191
    else if b = 224 then utf8Aux rest 2 160 191
    else if b = 237 then utf8Aux rest 2 128 159
    else if b ≤ 239 then utf8Aux rest 2 128 191
    else if b = 240 then utf8Aux rest 3 144 191
    else if b ≤ 243 then utf8Aux rest 3 128 191
    else if b = 244 then utf8Aux rest 3 128 143
    else false
  | b :: rest, need + 1, lo, hi =>
    if lo ≤ b ∧ b ≤ hi then utf8Aux rest need 128 191 else false

/-- Whether a byte string is well-formed UTF-8. -/
def utf8Valid (s : Bytes) : Bool := utf8Aux s 0 0 0

/-! ## The signed session manager (`session.py`) -/

/-- Modelled from the spec: `strings_differ` lives in `pysauropod.utils`,
which is not under `src/`.  The spec describes it as a comparison whose
running time is independent of the position of the first differing byte,
short-circuiting only on a length difference; functionally it returns true
exactly when the two strings differ. -/
def strings_differ (a b : Bytes) : Bool :=
  if a.length ≠ b.length then true
  else (a.zip b).any fun p => p.1 ≠ p.2

/-- A Python exception escaping (or being caught inside) the embedded code. -/
inductive PyErr where
  | typeError
  | valueError
  | unicodeDecodeError
  | keyError
  | trustError
  | otherError
deriving DecidableEq

/-- The signing key computed once in `SignedSessionManager.__init__`:
`self._sig_key = HKDF_expand(HKDF_extract("ISessionManager", secret), "SIGNING", 16)`.
The expansion always succeeds (`16 ≤ 255 * 20`), so the default is inert.
The manager's methods below take this derived key as their parameter,
exactly as they read `self._sig_key`. -/
def sigKey (secret : Bytes) : Bytes :=
  (HKDF_expand (HKDF_extract (strBytes "ISessionManager") secret) (strBytes "SIGNING") 16).getD []

/-- The raw inner payload `"%s:%s:%s" % (nonce, appid, userid)`.  The
source's `os.urandom(4)` nonce is an explicit parameter. -/
def session_raw (nonce appid userid : Bytes) : Bytes :=
  nonce ++ 58 :: appid ++ 58 :: userid

/-- The base64url-encoded payload segment of a token. -/
def session_payload (nonce appid userid : Bytes) : Bytes :=
  b64encode (session_raw nonce appid userid)

/-- The signed region `"%s:%s" % (timestamp, data)` of a token. -/
def session_sigdata (t : Nat) (nonce appid userid : Bytes) : Bytes :=
  hexBytes t ++ 58 :: session_payload nonce appid userid

/-- The signature segment: `b64encode(hmac.new(self._sig_key, data).digest())`,
HMAC-MD5 by the Python 2 `hmac.new` default. -/
def session_sig (key : Bytes) (t : Nat) (nonce appid userid : Bytes) : Bytes :=
  b64encode (hmacMd5 key (session_sigdata t nonce appid userid))

/-- `SignedSessionManager.new_session(appid, userid)` on a manager whose
derived signing key is `key`.  `t` is `int(time.time())` at issuance and
`nonce` the four `os.urandom` bytes; the inputs are Python 2 byte strings,
so the `isinstance(_, unicode)` re-encoding branches are not taken. -/
def new_session (key : Bytes) (t : Nat) (nonce appid userid : Bytes) : Bytes :=
  session_sigdata t nonce appid userid ++ 58 :: session_sig key t nonce appid userid

/-- The tail of `get_session_data` after a matching signature: base64-decode
the payload (malformed base64 raises an uncaught decode error), split it on
the first two colons (fewer than two colons raises an uncaught
`ValueError` from tuple unpacking), and UTF-8-decode the userid. -/
def sessionFinish (data : Bytes) : Except PyErr (Option (Bytes × Bytes)) :=
  match b64decode data with
  | none => .error .typeError
  | some raw =>
    match pySplitLeft2 raw with
    | none => .error .valueError
    | some (_, appid, userid) =>
      if utf8Valid userid then .ok (some (appid, userid)) else .error .unicodeDecodeError

/-- `SignedSessionManager.get_session_data(sessionid)` on a manager whose
derived signing key is `key`.  `now` is `time.time()` at validation
(modelled at integer resolution); `.ok none` is the `None` the method
returns for rejected tokens, and `.error` a Python exception escaping the
method. -/
def get_session_data (key : Bytes) (timeout : Int) (now : Int) (sessionid : Bytes) :
    Except PyErr (Option (Bytes × Bytes)) :=
  match pyRsplit2 sessionid with
  | none => .ok none
  | some (timestamp, data, sig) =>
    match pyIntHex timestamp with
    | none => .ok none
    | some v =>
      if v + timeout ≤ now then .ok none
      else
        if strings_differ sig (b64encode (hmacMd5 key (timestamp ++ 58 :: data))) then
          .ok none
        else sessionFinish data

/-! ## Credential checking (`credentials.py`) -/

/-- The credentials dict: `credentials.get("assertion")` and
`credentials.get("audience")`. -/
structure Credentials where
  assertion : Option Bytes
  audience : Option Bytes

/-- `BrowserIDCredentials.check_credentials`, instrumented with the number
of calls made to the external verifier.  The verifier is a parameter: it
returns a claims dict or raises.  Only `ValueError` and `vep.TrustError`
are caught; the `KeyError` from a claims dict without an `"email"` key, or
any other exception type, escapes. -/
def check_credentials_traced
    (verify : Bytes → Bytes → Except PyErr (List (Bytes × Bytes)))
    (c : Credentials) : Except PyErr (Option Bytes × Option Bytes) × Nat :=
  match c.assertion, c.audience with
  | some assertion, some audience =>
    (match verify assertion audience with
     | .error e => if e = .valueError ∨ e = .trustError then .ok (none, none) else .error e
     | .ok claims =>
       match claims.lookup (strBytes "email") with
       | some email => .ok (some audience, some email)
       | none => .error .keyError,
     1)
  | _, _ => (.ok (none, none), 0)

/-- `check_credentials` proper: the result, without the call count. -/
def check_credentials
    (verify : Bytes → Bytes → Except PyErr (List (Bytes × Bytes)))
    (c : Credentials) : Except PyErr (Option Bytes × Option Bytes) :=
  (check_credentials_traced verify c).1

/-! ## The RFC 5869 expand reference, from the spec's words

Used to settle the refinement claim about `HKDF_expand`: `T[i] =
HMAC-SHA1(key=PRK, message=T[i-1] ++ info ++ byte(i))` for `i = 1..N`,
`N = ceil(length / 20)`, concatenated and truncated to `length` bytes. -/

/-- The concatenation `T[i] ++ T[i+1] ++ ...` of `n` reference blocks,
carrying the previous block explicitly as the spec's recurrence does. -/
def hkdfRefAux (PRK info prevT : Bytes) (i : Nat) : Nat → Bytes
  | 0 => []
  | n + 1 =>
    let T := hmacSha1 PRK (prevT ++ info ++ [i])
    T ++ hkdfRefAux PRK info T (i + 1) n

/-- The spec's reference expansion: `T[1..N]` concatenated, truncated to
`L` bytes. -/
def hkdfRef (PRK info : Bytes) (L : Nat) : Bytes :=
  (hkdfRefAux PRK info [] 1 ((L + 19) / 20)).take L

/-! ## Lemmas: alphabets -/

/-- Every byte of the base64url alphabet is a printable non-colon,
non-whitespace character. -/
theorem b64alpha_tame : ∀ c ∈ b64alpha, c ≠ 58 ∧ isPySpace c = false := by decide

/-- An in-range `getD` access returns a member of the list. -/
theorem mem_getD : ∀ (l : List Nat) (n : Nat), n < l.length → ∀ d, l.getD n d ∈ l
  | x :: xs, 0, _, d => by simp
  | x :: xs, n + 1, h, d => by
    simp only [List.getD_cons_succ]
    exact List.mem_cons_of_mem x (mem_getD xs n (by simpa using h) d)

/-- The base64url alphabet has 64 entries. -/
theorem b64alpha_length : b64alpha.length = 64 := by decide

/-- `b64char` of an in-range value is an alphabet byte. -/
theorem b64char_mem_of_lt {n : Nat} (h : n < 64) : b64char n ∈ b64alpha := by
  have hlen := b64alpha_length
  exact mem_getD _ _ (by omega) _

/-- `b64char` never produces a colon. -/
theorem b64char_ne_colon (n : Nat) : b64char n ≠ 58 := by
  have hlen := b64alpha_length
  rcases Nat.lt_or_ge n 64 with h | h
  · exact (b64alpha_tame (b64char n) (mem_getD _ _ (by omega) _)).1
  · unfold b64char
    rw [List.getD_eq_default _ _ (by omega)]
    decide

/-- Every byte of an encoder output is an alphabet byte or padding. -/
theorem b64encode_mem : ∀ (l : Bytes), ∀ c ∈ b64encode l, c ∈ b64alpha ∨ c = 61
  | [], c, h => by simp [b64encode] at h
  | [b1], c, h => by
    have hlen := b64alpha_length
    simp only [b64encode, List.mem_cons, List.not_mem_nil, or_false] at h
    rcases h with h | h | h | h
    · subst h; exact Or.inl (mem_getD _ _ (by omega) _)
    · subst h; exact Or.inl (mem_getD _ _ (by omega) _)
    · subst h; exact Or.inr rfl
    · subst h; exact Or.inr rfl
  | [b1, b2], c, h => by
    have hlen := b64alpha_length
    simp only [b64encode, List.mem_cons, List.not_mem_nil, or_false] at h
    rcases h with h | h | h | h
    · subst h; exact Or.inl (mem_getD _ _ (by omega) _)
    · subst h; exact Or.inl (mem_getD _ _ (by omega) _)
    · subst h; exact Or.inl (mem_getD _ _ (by omega) _)
    · subst h; exact Or.inr rfl
  | b1 :: b2 :: b3 :: rest, c, h => by
    have hlen := b64alpha_length
    simp only [b64encode, List.mem_cons] at h
    rcases h with h | h | h | h | h
    · subst h; exact Or.inl (mem_getD _ _ (by omega) _)
    · subst h; exact Or.inl (mem_getD _ _ (by omega) _)
    · subst h; exact Or.inl (mem_getD _ _ (by omega) _)
    · subst h; exact Or.inl (mem_getD _ _ (by omega) _)
    · exact b64encode_mem rest c h

/-- The encoder never emits a colon. -/
theorem b64encode_ne_colon (l : Bytes) : ∀ c ∈ b64encode l, c ≠ 58 := by
  intro c hc
  rcases b64encode_mem l c hc with h | h
  · exact (b64alpha_tame c h).1
  · omega

/-- Every byte of `hexAux` output is a lowercase hex digit. -/
theorem hexAux_mem : ∀ (fuel n : Nat), ∀ b ∈ hexAux fuel n,
    (48 ≤ b ∧ b ≤ 57) ∨ (97 ≤ b ∧ b ≤ 102)
  | 0, _, b, h => by simp [hexAux] at h
  | fuel + 1, n, b, h => by
    rw [hexAux] at h
    by_cases h0 : n = 0
    · simp [h0] at h
    · rw [if_neg h0, List.mem_append] at h
      rcases h with h | h
      · exact hexAux_mem fuel (n / 16) b h
      · have hm : n % 16 < 16 := Nat.mod_lt n (by omega)
        have : ∀ m < 16, (48 ≤ hexDigit m ∧ hexDigit m ≤ 57) ∨
            (97 ≤ hexDigit m ∧ hexDigit m ≤ 102) := by decide
        simp only [List.mem_singleton] at h
        subst h
        exact this (n % 16) hm

/-- Every byte of `hexBytes` output is a lowercase hex digit. -/
theorem hexBytes_mem (n : Nat) : ∀ b ∈ hexBytes n,
    (48 ≤ b ∧ b ≤ 57) ∨ (97 ≤ b ∧ b ≤ 102) := by
  intro b h
  unfold hexBytes at h
  by_cases h0 : n = 0
  · simp [h0] at h
    omega
  · rw [if_neg h0] at h
    exact hexAux_mem n n b h

/-- The timestamp segment never contains a colon. -/
theorem hexBytes_ne_colon (n : Nat) : ∀ b ∈ hexBytes n, b ≠ 58 := by
  intro b h
  rcases hexBytes_mem n b h with h | h <;> omega

/-! ## Lemmas: splitting -/

/-- A colon-free string has no last-colon split. -/
theorem splitLastColon_eq_none : ∀ (l : Bytes), 58 ∉ l → splitLastColon l = none
  | [], _ => rfl
  | b :: rest, h => by
    have hb : b ≠ 58 := fun hb => h (hb ▸ List.mem_cons_self b rest)
    have hr : 58 ∉ rest := fun hr => h (List.mem_cons_of_mem b hr)
    simp [splitLastColon, splitLastColon_eq_none rest hr, hb]

/-- Splitting at the last colon finds the colon before a colon-free tail. -/
theorem splitLastColon_append : ∀ (a c : Bytes), 58 ∉ c →
    splitLastColon (a ++ 58 :: c) = some (a, c)
  | [], c, h => by simp [splitLastColon, splitLastColon_eq_none c h]
  | b :: a, c, h => by
    simp [splitLastColon, splitLastColon_append a c h]

/-- `rsplit(":", 2)` recovers the three segments when the last two are
colon-free (the first may contain further colons). -/
theorem pyRsplit2_append (ts data sig : Bytes) (hd : 58 ∉ data) (hs : 58 ∉ sig) :
    pyRsplit2 (ts ++ 58 :: (data ++ 58 :: sig)) = some (ts, data, sig) := by
  unfold pyRsplit2
  have h1 : ts ++ 58 :: (data ++ 58 :: sig) = (ts ++ 58 :: data) ++ 58 :: sig := by
    simp
  rw [h1, splitLastColon_append _ _ hs]
  dsimp only
  rw [splitLastColon_append _ _ hd]

/-- A colon-free string has no first-colon split. -/
theorem splitFirstColon_eq_none : ∀ (l : Bytes), 58 ∉ l → splitFirstColon l = none
  | [], _ => rfl
  | b :: rest, h => by
    have hb : b ≠ 58 := fun hb => h (hb ▸ List.mem_cons_self b rest)
    have hr : 58 ∉ rest := fun hr => h (List.mem_cons_of_mem b hr)
    simp [splitFirstColon, splitFirstColon_eq_none rest hr, hb]

/-- Splitting at the first colon finds the colon after a colon-free head. -/
theorem splitFirstColon_append : ∀ (a r : Bytes), 58 ∉ a →
    splitFirstColon (a ++ 58 :: r) = some (a, r)
  | [], r, _ => by simp [splitFirstColon]
  | b :: a, r, h => by
    have hb : b ≠ 58 := fun hb => h (hb ▸ List.mem_cons_self b a)
    have ha : 58 ∉ a := fun ha => h (List.mem_cons_of_mem b ha)
    simp [splitFirstColon, splitFirstColon_append a r ha, hb]

/-- `split(":", 2)` recovers the three fields when the first two are
colon-free (the last may contain further colons). -/
theorem pySplitLeft2_append (x y z : Bytes) (hx : 58 ∉ x) (hy : 58 ∉ y) :
    pySplitLeft2 (x ++ 58 :: (y ++ 58 :: z)) = some (x, y, z) := by
  unfold pySplitLeft2
  rw [splitFirstColon_append _ _ hx]
  dsimp only
  rw [splitFirstColon_append _ _ hy]

/-! ## Lemmas: hex round trip through the Python parser -/

/-- `hexVal` inverts `hexDigit` on digit values. -/
theorem hexVal_hexDigit : ∀ m < 16, hexVal (hexDigit m) = some m := by decide

/-- `hexAux` of zero is empty whatever the fuel. -/
theorem hexAux_zero : ∀ fuel, hexAux fuel 0 = []
  | 0 => rfl
  | _ + 1 => by simp [hexAux]

/-- Appending one digit multiplies the accumulated value by 16. -/
theorem hexDigitsVal_append (xs : Bytes) (d : Nat) :
    hexDigitsVal (xs ++ [d]) = hexStep (hexDigitsVal xs) d := by
  simp [hexDigitsVal, List.foldl_append]

/-- With enough fuel, `hexAux` digits evaluate back to the number. -/
theorem hexDigitsVal_hexAux : ∀ (fuel n : Nat), n ≤ fuel →
    hexDigitsVal (hexAux fuel n) = some n
  | 0, n, h => by
    have : n = 0 := by omega
    subst this
    rfl
  | fuel + 1, n, h => by
    rw [hexAux]
    by_cases h0 : n = 0
    · subst h0; rfl
    · rw [if_neg h0, hexDigitsVal_append,
        hexDigitsVal_hexAux fuel (n / 16) (by omega)]
      have hm : n % 16 < 16 := Nat.mod_lt n (by omega)
      simp [hexStep, hexVal_hexDigit (n % 16) hm]
      omega

/-- With enough fuel, the leading digit of a positive number is a nonzero
hex digit. -/
theorem hexAux_head : ∀ (fuel n : Nat), 0 < n → n ≤ fuel →
    ∃ b r, hexAux fuel n = b :: r ∧ ((49 ≤ b ∧ b ≤ 57) ∨ (97 ≤ b ∧ b ≤ 102))
  | 0, n, h0, h => by omega
  | fuel + 1, n, h0, h => by
    rw [hexAux, if_neg (by omega)]
    by_cases hq : n / 16 = 0
    · rw [hq, hexAux_zero]
      have hn : n < 16 := by omega
      have hdig : ∀ m, m < 16 → 0 < m →
          (49 ≤ hexDigit m ∧ hexDigit m ≤ 57) ∨ (97 ≤ hexDigit m ∧ hexDigit m ≤ 102) := by
        decide
      exact ⟨hexDigit (n % 16), [], by simp [Nat.mod_eq_of_lt hn],
        by rw [Nat.mod_eq_of_lt hn]; exact hdig n hn h0⟩
    · obtain ⟨b, r, hbr, hb⟩ := hexAux_head fuel (n / 16) (by omega) (by omega)
      exact ⟨b, r ++ [hexDigit (n % 16)], by rw [hbr]; simp, hb⟩

/-- `dropWhile` is the identity when no byte satisfies the predicate. -/
theorem dropWhile_of_none (p : Nat → Bool) (l : Bytes) (h : ∀ b ∈ l, p b = false) :
    l.dropWhile p = l := by
  cases l with
  | nil => rfl
  | cons x xs => simp [List.dropWhile_cons, h x (List.mem_cons_self x xs)]

/-- `stripWs` is the identity on whitespace-free strings. -/
theorem stripWs_of_no_ws (l : Bytes) (h : ∀ b ∈ l, isPySpace b = false) :
    stripWs l = l := by
  unfold stripWs
  rw [dropWhile_of_none _ l h, dropWhile_of_none _ l.reverse (by simpa using h),
    List.reverse_reverse]

/-- A trailing byte of a nonempty list is a member. -/
theorem mem_of_getLast? : ∀ (l : Bytes) (b : Nat), l.getLast? = some b → b ∈ l
  | [], b, h => by simp at h
  | [x], b, h => by
    simp [List.getLast?] at h
    simp [h]
  | x :: y :: xs, b, h => by
    rw [List.getLast?_cons_cons] at h
    exact List.mem_cons_of_mem x (mem_of_getLast? (y :: xs) b h)

/-- `int(_, 16)` on the timestamp written by `new_session` recovers the
issuance time. -/
theorem pyIntHex_hexBytes (n : Nat) : pyIntHex (hexBytes n) = some (n : Int) := by
  have hmem := hexBytes_mem n
  have hsign : pySign (hexBytes n) = (false, hexBytes n) := by
    unfold hexBytes
    by_cases h0 : n = 0
    · simp [h0, pySign]
    · rw [if_neg h0]
      obtain ⟨b, r, hbr, hb⟩ := hexAux_head n n (by omega) le_rfl
      rw [hbr]
      simp only [pySign]
      rw [if_neg (by omega), if_neg (by omega)]
  have hpre : pyHexPrefix (hexBytes n) = hexBytes n := by
    unfold hexBytes
    by_cases h0 : n = 0
    · simp [h0, pyHexPrefix]
    · rw [if_neg h0]
      obtain ⟨b, r, hbr, hb⟩ := hexAux_head n n (by omega) le_rfl
      rw [hbr]
      cases r with
      | nil => simp [pyHexPrefix]
      | cons y ys =>
        simp only [pyHexPrefix]
        rw [if_neg (by omega)]
  have hlast : pyDropL (hexBytes n) = hexBytes n := by
    unfold pyDropL
    rw [if_neg]
    intro hL
    rcases hL with hL | hL <;>
      rcases hmem _ (mem_of_getLast? _ _ hL) with h | h <;> omega
  have hne : hexBytes n ≠ [] := by
    unfold hexBytes
    by_cases h0 : n = 0
    · simp [h0]
    · rw [if_neg h0]
      obtain ⟨b, r, hbr, _⟩ := hexAux_head n n (by omega) le_rfl
      simp [hbr]
  have hval : hexDigitsVal (hexBytes n) = some n := by
    unfold hexBytes
    by_cases h0 : n = 0
    · simp [h0]
      rfl
    · rw [if_neg h0]
      exact hexDigitsVal_hexAux n n le_rfl
  unfold pyIntHex
  rw [stripWs_of_no_ws _ (by intro b hb; rcases hmem b hb with h | h <;>
    simp [isPySpace] <;> omega), hsign]
  dsimp only
  rw [hpre, hlast, if_neg hne, hval]
  simp

/-! ## Lemmas: `strings_differ` -/

/-- Zipping a list with itself yields no differing pair. -/
theorem zip_self_any_ne : ∀ (l : Bytes), ((l.zip l).any fun p => p.1 ≠ p.2) = false
  | [] => rfl
  | x :: xs => by
    rw [List.zip_cons_cons, List.any_cons, zip_self_any_ne xs]
    simp

/-- `strings_differ` holds of no string and itself. -/
theorem strings_differ_self (a : Bytes) : strings_differ a a = false := by
  unfold strings_differ
  rw [if_neg (by simp)]
  exact zip_self_any_ne a

/-- Equal-length strings with no differing zipped pair are equal. -/
theorem eq_of_zip_any_ne_false : ∀ (a b : Bytes), a.length = b.length →
    ((a.zip b).any fun p => p.1 ≠ p.2) = false → a = b
  | [], [], _, _ => rfl
  | [], _ :: _, h, _ => by simp at h
  | _ :: _, [], h, _ => by simp at h
  | x :: xs, y :: ys, h, hz => by
    rw [List.zip_cons_cons, List.any_cons] at hz
    simp only [Bool.or_eq_false_iff] at hz
    have hxy : x = y := by
      rcases hz with ⟨h1, _⟩
      by_contra hne
      simp [hne] at h1
    rw [hxy, eq_of_zip_any_ne_false xs ys (by simpa using h) hz.2]

/-- `strings_differ` is functional string inequality. -/
theorem strings_differ_eq_false_iff (a b : Bytes) :
    strings_differ a b = false ↔ a = b := by
  constructor
  · intro h
    unfold strings_differ at h
    by_cases hl : a.length = b.length
    · rw [if_neg (by omega)] at h
      exact eq_of_zip_any_ne_false a b hl h
    · rw [if_pos hl] at h
      cases h
  · intro h
    subst h
    exact strings_differ_self a

/-! ## Lemmas: base64 round trip -/

/-- `b64val` inverts `b64char` on 6-bit values. -/
theorem b64val_b64char : ∀ s, s < 64 → b64val (b64char s) = some s := by decide

/-- In-range `b64char` output is never the padding byte. -/
theorem b64char_ne_pad : ∀ s, s < 64 → b64char s ≠ 61 := by decide

/-- Decoding inverts encoding on genuine byte strings. -/
theorem b64_roundtrip : ∀ (l : Bytes), (∀ b ∈ l, b < 256) →
    b64decode (b64encode l) = some l
  | [], _ => rfl
  | [b1], h => by
    have hb1 : b1 < 256 := h b1 (by simp)
    have e : b64encode [b1] =
        [b64char (b1 % 256 / 4), b64char (b1 % 256 % 4 * 16), 61, 61] := rfl
    rw [e]
    simp only [b64decode]
    rw [b64val_b64char _ (by omega), b64val_b64char _ (by omega)]
    dsimp only
    rw [if_pos (by simp)]
    simp only [Option.some.injEq, List.cons.injEq, and_true]
    omega
  | [b1, b2], h => by
    have hb1 : b1 < 256 := h b1 (by simp)
    have hb2 : b2 < 256 := h b2 (by simp)
    have e : b64encode [b1, b2] =
        [b64char ((b1 % 256 * 256 + b2 % 256) / 1024),
         b64char ((b1 % 256 * 256 + b2 % 256) / 16 % 64),
         b64char ((b1 % 256 * 256 + b2 % 256) % 16 * 4), 61] := rfl
    rw [e]
    simp only [b64decode]
    rw [b64val_b64char _ (by omega), b64val_b64char _ (by omega)]
    dsimp only
    rw [if_neg (fun hc => b64char_ne_pad _ (by omega) hc.1), if_pos (by simp),
      b64val_b64char _ (by omega)]
    simp only [Option.some.injEq, List.cons.injEq, and_true]
    omega
  | b1 :: b2 :: b3 :: rest, h => by
    have hb1 : b1 < 256 := h b1 (by simp)
    have hb2 : b2 < 256 := h b2 (by simp)
    have hb3 : b3 < 256 := h b3 (by simp)
    have hrest : ∀ b ∈ rest, b < 256 := fun b hb =>
      h b (List.mem_cons_of_mem _ (List.mem_cons_of_mem _ (List.mem_cons_of_mem _ hb)))
    have e : b64encode (b1 :: b2 :: b3 :: rest) =
        b64char ((b1 % 256 * 65536 + b2 % 256 * 256 + b3 % 256) / 262144) ::
        b64char ((b1 % 256 * 65536 + b2 % 256 * 256 + b3 % 256) / 4096 % 64) ::
        b64char ((b1 % 256 * 65536 + b2 % 256 * 256 + b3 % 256) / 64 % 64) ::
        b64char ((b1 % 256 * 65536 + b2 % 256 * 256 + b3 % 256) % 64) ::
        b64encode rest := rfl
    rw [e]
    simp only [b64decode]
    rw [b64val_b64char _ (by omega), b64val_b64char _ (by omega)]
    dsimp only
    rw [if_neg (fun hc => b64char_ne_pad _ (by omega) hc.1),
      if_neg (fun hc => b64char_ne_pad _ (by omega) hc.1),
      b64val_b64char _ (by omega), b64val_b64char _ (by omega)]
    dsimp only
    rw [b64_roundtrip rest hrest]
    simp only [Option.some.injEq, List.cons.injEq, eq_self_iff_true, and_true]
    omega

/-! ## Lemmas: digests and HKDF -/

/-- SHA-1 digests have 20 bytes. -/
theorem sha1_length (m : Bytes) : (sha1 m).length = 20 := by
  simp [sha1, sha1Out, bytesBE4]

/-- HMAC-SHA1 digests have 20 bytes. -/
theorem hmacSha1_length (k m : Bytes) : (hmacSha1 k m).length = 20 := by
  simp [hmacSha1, hmacWith, sha1_length]

/-- MD5 digest bytes are bytes. -/
theorem md5_mem_lt (m : Bytes) : ∀ b ∈ md5 m, b < 256 := by
  intro b hb
  simp only [md5, bytesLE4, List.append_assoc, List.mem_append, List.mem_cons,
    List.not_mem_nil, or_false] at hb
  rcases hb with h | h | h | h <;> rcases h with h | h | h | h <;> subst h <;>
    exact Nat.mod_lt _ (by omega)

/-- HMAC-MD5 digest bytes are bytes. -/
theorem hmacMd5_mem_lt (k m : Bytes) : ∀ b ∈ hmacMd5 k m, b < 256 :=
  fun b hb => md5_mem_lt _ b hb

/-- Each HKDF block has 20 bytes. -/
theorem HKDF_T_length (PRK info : Bytes) : ∀ i, 0 < i → (HKDF_T PRK info i).length = 20 := by
  intro i hi
  cases i with
  | zero => omega
  | succ j => rw [HKDF_T]; exact hmacSha1_length _ _

/-- The reference accumulator agrees with the map-based translation of the
source loop, for any starting block index. -/
theorem hkdfRefAux_eq (PRK info : Bytes) : ∀ (n k : Nat),
    hkdfRefAux PRK info (HKDF_T PRK info k) (k + 1) n =
      ((List.range n).map fun j => HKDF_T PRK info (k + 1 + j)).flatten
  | 0, k => rfl
  | n + 1, k => by
    rw [hkdfRefAux]
    have hT : hmacSha1 PRK (HKDF_T PRK info k ++ info ++ [k + 1]) =
        HKDF_T PRK info (k + 1) := rfl
    rw [List.range_succ_eq_map, List.map_cons, List.map_map, List.flatten_cons]
    rw [hT, hkdfRefAux_eq PRK info n (k + 1)]
    have harg : ((fun j => HKDF_T PRK info (k + 1 + j)) ∘ Nat.succ) =
        fun j => HKDF_T PRK info (k + 1 + 1 + j) := by
      funext x
      simp only [Function.comp]
      congr 1
      omega
    rw [harg]

/-- The source expansion equals the spec's reference on every in-bound
request. -/
theorem HKDF_expand_eq_ref (PRK info : Bytes) (L : Nat) (h : (L + 19) / 20 ≤ 255) :
    HKDF_expand PRK info L = some (hkdfRef PRK info L) := by
  unfold HKDF_expand hkdfRef
  rw [if_pos h]
  have h0 : hkdfRefAux PRK info [] 1 ((L + 19) / 20) =
      hkdfRefAux PRK info (HKDF_T PRK info 0) (0 + 1) ((L + 19) / 20) := rfl
  rw [h0, hkdfRefAux_eq]
  have harg : (fun j => HKDF_T PRK info (0 + 1 + j)) =
      fun i => HKDF_T PRK info (i + 1) := by
    funext j
    congr 1
    omega
  rw [harg]

/-- The concatenation of the first `n` blocks has `20 * n` bytes. -/
theorem hkdf_blocks_length (PRK info : Bytes) : ∀ n : Nat,
    (((List.range n).map fun i => HKDF_T PRK info (i + 1)).flatten).length = 20 * n
  | 0 => rfl
  | n + 1 => by
    rw [List.range_succ, List.map_append, List.flatten_append, List.length_append,
      hkdf_blocks_length PRK info n]
    simp [HKDF_T_length PRK info (n + 1) (by omega)]
    omega

/-- The reference output has exactly the requested length. -/
theorem hkdfRef_length (PRK info : Bytes) (L : Nat) :
    (hkdfRef PRK info L).length = L := by
  unfold hkdfRef
  have h0 : hkdfRefAux PRK info [] 1 ((L + 19) / 20) =
      hkdfRefAux PRK info (HKDF_T PRK info 0) (0 + 1) ((L + 19) / 20) := rfl
  rw [List.length_take, h0, hkdfRefAux_eq]
  have hlen : (((List.range ((L + 19) / 20)).map
      fun j => HKDF_T PRK info (0 + 1 + j)).flatten).length = 20 * ((L + 19) / 20) := by
    have := hkdf_blocks_length PRK info ((L + 19) / 20)
    have harg : (fun j => HKDF_T PRK info (0 + 1 + j)) =
        fun i => HKDF_T PRK info (i + 1) := by
      funext j
      congr 1
      omega
    rw [harg]
    exact this
  rw [hlen]
  have := Nat.div_add_mod (L + 19) 20
  omega

/-! ## Lemmas: token shape through `get_session_data` -/

/-- On a token whose last two segments are colon-free, `get_session_data`
reduces to timestamp parsing, expiry, signature comparison and payload
decoding, with the recomputed signature taken over `timestamp:data`. -/
theorem get_session_data_split (key : Bytes) (timeout now : Int) (ts data sig : Bytes)
    (hd : 58 ∉ data) (hs : 58 ∉ sig) :
    get_session_data key timeout now (ts ++ 58 :: (data ++ 58 :: sig)) =
      match pyIntHex ts with
      | none => .ok none
      | some v =>
        if v + timeout ≤ now then .ok none
        else
          if strings_differ sig (b64encode (hmacMd5 key (ts ++ 58 :: data))) then .ok none
          else sessionFinish data := by
  unfold get_session_data
  rw [pyRsplit2_append ts data sig hd hs]

/-! ## Concrete values for counterexamples

The spec's concrete scenario uses a secret of sixteen 0x4B bytes; the
derived signing key is evaluated once so that later kernel evaluations can
start from the literal. -/

deriving instance DecidableEq for Except

/-- The spec's concrete secret: sixteen bytes of 0x4B. -/
def K4B : Bytes := List.replicate 16 75

/-- The extract step on the 0x4B secret (evaluated separately to keep each
kernel evaluation below two HMAC invocations deep). -/
theorem hkdfExtract_K4B : HKDF_extract (strBytes "ISessionManager") K4B =
    [231, 85, 193, 235, 65, 61, 153, 238, 37, 64, 151, 97,
     48, 14, 218, 151, 245, 115, 92, 187] := by
  decide

/-- The expand step on the extracted key. -/
theorem hkdfExpand_K4B : HKDF_expand
    [231, 85, 193, 235, 65, 61, 153, 238, 37, 64, 151, 97,
     48, 14, 218, 151, 245, 115, 92, 187] (strBytes "SIGNING") 16 =
    some [237, 172, 231, 66, 91, 248, 179, 63, 62, 229, 254, 203, 79, 120, 241, 161] := by
  decide

/-- The signing key derived from the 0x4B secret. -/
theorem sigKey_K4B : sigKey K4B =
    [237, 172, 231, 66, 91, 248, 179, 63, 62, 229, 254, 203, 79, 120, 241, 161] := by
  unfold sigKey
  rw [hkdfExtract_K4B, hkdfExpand_K4B]
  rfl

/-- The token issued by the 0x4B manager at time 5 with nonce `[1,2,3,4]`,
appid `"a:b"` and userid `"u"`, as a byte literal. -/
theorem newSessionAB_eq :
    new_session [237, 172, 231, 66, 91, 248, 179, 63, 62, 229, 254, 203, 79, 120, 241, 161]
      5 [1, 2, 3, 4] (strBytes "a:b") (strBytes "u") =
    [53, 58, 65, 81, 73, 68, 66, 68, 112, 104, 79, 109, 73, 54, 100, 81, 61, 61, 58,
     73, 117, 82, 106, 98, 114, 67, 87, 117, 119, 101, 109, 85, 73, 121, 80, 68, 77,
     55, 70, 90, 65, 61, 61] := by
  decide

/-! ## Tamper rejection (partial results)

The unconditional halves of tamper detection: any forged colon-free
signature segment is rejected, and a changed payload segment is rejected
whenever its recomputed HMAC differs from the token's.  The remaining gap
to full tamper detection is exactly collision-freeness of HMAC-MD5 on the
two signed strings. -/

/-- A token whose signature segment is anything other than the genuine
signature (colon-free case) is rejected, at every clock value. -/
theorem tampered_signature_rejected (key : Bytes) (t : Nat) (nonce appid userid : Bytes)
    (timeout now : Int) (sig2 : Bytes) (hs : 58 ∉ sig2)
    (hne : sig2 ≠ session_sig key t nonce appid userid) :
    get_session_data key timeout now
      (session_sigdata t nonce appid userid ++ 58 :: sig2) = .ok none := by
  have hshape : session_sigdata t nonce appid userid ++ 58 :: sig2 =
      hexBytes t ++ 58 :: (session_payload nonce appid userid ++ 58 :: sig2) := by
    simp [session_sigdata]
  have hpay : 58 ∉ session_payload nonce appid userid := fun hmem =>
    b64encode_ne_colon (session_raw nonce appid userid) 58 hmem rfl
  rw [hshape, get_session_data_split key timeout now (hexBytes t)
      (session_payload nonce appid userid) sig2 hpay hs, pyIntHex_hexBytes]
  dsimp only
  by_cases hexp : (t : Int) + timeout ≤ now
  · rw [if_pos hexp]
  · rw [if_neg hexp]
    cases hdiff : strings_differ sig2
        (b64encode (hmacMd5 key (hexBytes t ++ 58 :: session_payload nonce appid userid))) with
    | false => exact absurd ((strings_differ_eq_false_iff _ _).1 hdiff) hne
    | true => rw [if_pos rfl]

/-- A token whose payload segment was changed (colon-free case) is rejected
whenever the HMAC of the altered signed region differs from the HMAC of the
genuine one — the only case the code's MAC comparison cannot itself
distinguish would be an HMAC-MD5 collision. -/
theorem tampered_payload_rejected (key : Bytes) (t : Nat) (nonce appid userid : Bytes)
    (timeout now : Int) (data2 : Bytes) (hd : 58 ∉ data2)
    (hmac_ne : hmacMd5 key (hexBytes t ++ 58 :: data2) ≠
      hmacMd5 key (session_sigdata t nonce appid userid)) :
    get_session_data key timeout now
      (hexBytes t ++ 58 :: (data2 ++ 58 :: session_sig key t nonce appid userid)) =
      .ok none := by
  have hsigfree : 58 ∉ session_sig key t nonce appid userid := fun hmem =>
    b64encode_ne_colon (hmacMd5 key (session_sigdata t nonce appid userid)) 58 hmem rfl
  rw [get_session_data_split key timeout now (hexBytes t) data2
      (session_sig key t nonce appid userid) hd hsigfree, pyIntHex_hexBytes]
  dsimp only
  by_cases hexp : (t : Int) + timeout ≤ now
  · rw [if_pos hexp]
  · rw [if_neg hexp]
    cases hdiff : strings_differ (session_sig key t nonce appid userid)
        (b64encode (hmacMd5 key (hexBytes t ++ 58 :: data2))) with
    | false =>
      exfalso
      have heq := (strings_differ_eq_false_iff _ _).1 hdiff
      unfold session_sig at heq
      have hdec := congrArg b64decode heq
      rw [b64_roundtrip (hmacMd5 key (session_sigdata t nonce appid userid))
          (hmacMd5_mem_lt _ _),
        b64_roundtrip (hmacMd5 key (hexBytes t ++ 58 :: data2))
          (hmacMd5_mem_lt _ _)] at hdec
      exact hmac_ne (Option.some.inj hdec).symm
    | true => rw [if_pos rfl]

/-! ## The claims -/

/-- C1, counterexample: with the 0x4B secret, issuing at time 5 for the
ASCII appid `"a:b"` and userid `"u"` and validating immediately returns
`("a", "b:u")`, not the original pair — the inner `split(":", 2)` cannot
tell the appid's colon from a field separator. -/
theorem c1_counterexample :
    get_session_data (sigKey K4B) 300 5
        (new_session (sigKey K4B) 5 [1, 2, 3, 4] (strBytes "a:b") (strBytes "u")) =
      .ok (some (strBytes "a", strBytes "b:u")) ∧
    (strBytes "a", strBytes "b:u") ≠ (strBytes "a:b", strBytes "u") := by
  constructor
  · rw [sigKey_K4B, newSessionAB_eq]
    decide
  · decide

/-- C1, amended: for every signing key, issuance time, timeout and clock,
validating a fresh token before `timeout` seconds have elapsed returns the
original `(appid, userid)` pair, provided the appid and the random nonce
are colon-free and the userid is well-formed UTF-8 (all fields being byte
strings). -/
theorem c1_round_trip (key : Bytes) (t : Nat) (nonce appid userid : Bytes)
    (timeout now : Int)
    (hn : 58 ∉ nonce) (ha : 58 ∉ appid)
    (hnb : ∀ b ∈ nonce, b < 256) (hab : ∀ b ∈ appid, b < 256)
    (hub : ∀ b ∈ userid, b < 256)
    (huser : utf8Valid userid = true)
    (hnow : now < (t : Int) + timeout) :
    get_session_data key timeout now (new_session key t nonce appid userid) =
      .ok (some (appid, userid)) := by
  have htoken : new_session key t nonce appid userid =
      hexBytes t ++ 58 :: (session_payload nonce appid userid ++ 58 ::
        session_sig key t nonce appid userid) := by
    simp [new_session, session_sigdata]
  have hpay : 58 ∉ session_payload nonce appid userid := fun hmem =>
    b64encode_ne_colon (session_raw nonce appid userid) 58 hmem rfl
  have hsigfree : 58 ∉ session_sig key t nonce appid userid := fun hmem =>
    b64encode_ne_colon (hmacMd5 key (session_sigdata t nonce appid userid)) 58 hmem rfl
  rw [htoken, get_session_data_split key timeout now (hexBytes t)
      (session_payload nonce appid userid) (session_sig key t nonce appid userid)
      hpay hsigfree, pyIntHex_hexBytes]
  dsimp only
  rw [if_neg (by omega)]
  have hsig : strings_differ (session_sig key t nonce appid userid)
      (b64encode (hmacMd5 key (hexBytes t ++ 58 :: session_payload nonce appid userid))) =
      false := strings_differ_self _
  rw [if_neg (by rw [hsig]; exact Bool.false_ne_true)]
  unfold sessionFinish session_payload
  have hraw : ∀ b ∈ session_raw nonce appid userid, b < 256 := by
    intro b hb
    unfold session_raw at hb
    rcases List.mem_append.1 hb with h | h
    · rcases List.mem_append.1 h with h | h
      · exact hnb b h
      · rcases List.mem_cons.1 h with h | h
        · omega
        · exact hab b h
    · rcases List.mem_cons.1 h with h | h
      · omega
      · exact hub b h
  rw [b64_roundtrip _ hraw]
  unfold session_raw
  have hassoc : nonce ++ 58 :: appid ++ 58 :: userid =
      nonce ++ 58 :: (appid ++ 58 :: userid) := by simp
  rw [hassoc]
  dsimp only
  rw [pySplitLeft2_append nonce appid userid hn ha]
  dsimp only
  rw [if_pos huser]

/-- C1, witness: the amended round trip at the spec's concrete scenario
(0x4B secret, `"app1"`, `"user@example.com"`, validated one second after
issuance with the default 300-second timeout). -/
theorem c1_round_trip_witness :
    get_session_data (sigKey K4B) 300 4097
      (new_session (sigKey K4B) 4096 [1, 2, 3, 4] (strBytes "app1")
        (strBytes "user@example.com")) =
      .ok (some (strBytes "app1", strBytes "user@example.com")) :=
  c1_round_trip (sigKey K4B) 4096 [1, 2, 3, 4] (strBytes "app1")
    (strBytes "user@example.com") 300 4097 (by decide) (by decide) (by decide)
    (by decide) (by decide) (by decide) (by decide)

/-- C2, counterexample: on the 0x4B manager the issued token splits into
timestamp, payload and signature, and the signature segment is not
`base64url(HMAC-SHA1(signingKey, timestamp:payload))` — Python 2's
`hmac.new` default makes it HMAC-MD5. -/
theorem c2_counterexample :
    pyRsplit2 (new_session (sigKey K4B) 5 [1, 2, 3, 4] (strBytes "a:b") (strBytes "u")) =
      some (hexBytes 5, session_payload [1, 2, 3, 4] (strBytes "a:b") (strBytes "u"),
        session_sig (sigKey K4B) 5 [1, 2, 3, 4] (strBytes "a:b") (strBytes "u")) ∧
    session_sig (sigKey K4B) 5 [1, 2, 3, 4] (strBytes "a:b") (strBytes "u") ≠
      b64encode (hmacSha1 (sigKey K4B)
        (session_sigdata 5 [1, 2, 3, 4] (strBytes "a:b") (strBytes "u"))) := by
  constructor
  · have htoken : new_session (sigKey K4B) 5 [1, 2, 3, 4] (strBytes "a:b") (strBytes "u") =
        hexBytes 5 ++ 58 :: (session_payload [1, 2, 3, 4] (strBytes "a:b") (strBytes "u") ++
          58 :: session_sig (sigKey K4B) 5 [1, 2, 3, 4] (strBytes "a:b") (strBytes "u")) := by
      simp [new_session, session_sigdata]
    rw [htoken]
    exact pyRsplit2_append _ _ _
      (fun hmem => b64encode_ne_colon (session_raw _ _ _) 58 hmem rfl)
      (fun hmem => b64encode_ne_colon (hmacMd5 _ _) 58 hmem rfl)
  · rw [sigKey_K4B]
    decide

/-- C2, amended: the signature segment of every issued token is
`base64url(HMAC-MD5(signingKey, timestamp:payload))` — MD5, not SHA-1,
being Python 2's `hmac.new` default — and validation recomputes the
expected signature with that same HMAC-MD5 construction over
`timestamp:data` and rejects exactly on mismatch. -/
theorem c2_signature_scheme :
    (∀ (key : Bytes) (t : Nat) (nonce appid userid : Bytes),
      new_session key t nonce appid userid =
        (hexBytes t ++ 58 :: session_payload nonce appid userid) ++ 58 ::
          b64encode (hmacMd5 key (hexBytes t ++ 58 :: session_payload nonce appid userid))) ∧
    (∀ (key : Bytes) (timeout now : Int) (ts data sig : Bytes) (v : Int),
      58 ∉ data → 58 ∉ sig → pyIntHex ts = some v → now < v + timeout →
      get_session_data key timeout now (ts ++ 58 :: (data ++ 58 :: sig)) =
        if strings_differ sig (b64encode (hmacMd5 key (ts ++ 58 :: data))) then .ok none
        else sessionFinish data) := by
  constructor
  · intro key t nonce appid userid
    rfl
  · intro key timeout now ts data sig v hd hs hv hnow
    rw [get_session_data_split key timeout now ts data sig hd hs, hv]
    dsimp only
    rw [if_neg (by omega)]

/-- C2, witness: both halves of the amended signature-scheme theorem at
concrete inputs (the 0x4B manager; a token whose timestamp parses to 5,
checked at time 5 with timeout 300). -/
theorem c2_signature_scheme_witness :
    (new_session (sigKey K4B) 5 [1, 2, 3, 4] (strBytes "a") (strBytes "u") =
      (hexBytes 5 ++ 58 :: session_payload [1, 2, 3, 4] (strBytes "a") (strBytes "u")) ++ 58 ::
        b64encode (hmacMd5 (sigKey K4B)
          (hexBytes 5 ++ 58 :: session_payload [1, 2, 3, 4] (strBytes "a") (strBytes "u")))) ∧
    (get_session_data (sigKey K4B) 300 5
        (strBytes "5" ++ 58 :: (strBytes "AA" ++ 58 :: strBytes "BB")) =
      if strings_differ (strBytes "BB")
          (b64encode (hmacMd5 (sigKey K4B) (strBytes "5" ++ 58 :: strBytes "AA"))) then .ok none
      else sessionFinish (strBytes "AA")) :=
  ⟨c2_signature_scheme.1 (sigKey K4B) 5 [1, 2, 3, 4] (strBytes "a") (strBytes "u"),
   c2_signature_scheme.2 (sigKey K4B) 300 5 (strBytes "5") (strBytes "AA") (strBytes "BB") 5
     (by decide) (by decide) (by decide) (by decide)⟩

/-- C3, counterexample: with both fields present and an external verifier
that successfully returns a claims record without an `"email"` key, the
`KeyError` raised by `claims["email"]` is not caught by the
`except (ValueError, vep.TrustError)` clause and escapes to the caller,
so the result is neither `(audience, email)` nor `(None, None)`. -/
theorem c3_counterexample :
    check_credentials (fun _ _ => .ok [])
      ⟨some (strBytes "proof"), some (strBytes "aud")⟩ = .error .keyError := rfl

/-- C3, amended: with both fields present, `check_credentials` returns
`(audience, claims["email"])` when the verifier succeeds with an `"email"`
claim, collapses `ValueError` and `vep.TrustError` to `(None, None)`, and
lets every other exception — including the `KeyError` from claims lacking
`"email"` — propagate to the caller. -/
theorem c3_check_credentials_cases
    (verify : Bytes → Bytes → Except PyErr (List (Bytes × Bytes)))
    (c : Credentials) (a u : Bytes)
    (ha : c.assertion = some a) (hu : c.audience = some u) :
    ((verify a u = .error .valueError ∨ verify a u = .error .trustError) →
      check_credentials verify c = .ok (none, none)) ∧
    (∀ e, verify a u = .error e → e ≠ .valueError → e ≠ .trustError →
      check_credentials verify c = .error e) ∧
    (∀ claims email, verify a u = .ok claims →
      claims.lookup (strBytes "email") = some email →
      check_credentials verify c = .ok (some u, some email)) ∧
    (∀ claims, verify a u = .ok claims → claims.lookup (strBytes "email") = none →
      check_credentials verify c = .error .keyError) := by
  unfold check_credentials check_credentials_traced
  rw [ha, hu]
  dsimp only
  refine ⟨?_, ?_, ?_, ?_⟩
  · rintro (h | h) <;> rw [h] <;> simp
  · intro e he h1 h2
    rw [he]
    dsimp only
    rw [if_neg (by rintro (h | h) <;> [exact h1 h; exact h2 h])]
  · intro claims email hok hlookup
    rw [hok]
    dsimp only
    rw [hlookup]
  · intro claims hok hlookup
    rw [hok]
    dsimp only
    rw [hlookup]

/-- C3, witness: the amended characterisation at concrete inputs — a
verifier raising `vep.TrustError` collapses to `(None, None)` and a
verifier returning an `"email"` claim yields the identity pair. -/
theorem c3_check_credentials_witness :
    check_credentials (fun _ _ => .error .trustError)
      ⟨some (strBytes "proof"), some (strBytes "aud")⟩ = .ok (none, none) ∧
    check_credentials (fun _ _ => .ok [(strBytes "email", strBytes "u")])
      ⟨some (strBytes "proof"), some (strBytes "aud")⟩ =
      .ok (some (strBytes "aud"), some (strBytes "u")) :=
  ⟨(c3_check_credentials_cases (fun _ _ => .error .trustError)
      ⟨some (strBytes "proof"), some (strBytes "aud")⟩ (strBytes "proof") (strBytes "aud")
      rfl rfl).1 (Or.inr rfl),
   (c3_check_credentials_cases (fun _ _ => .ok [(strBytes "email", strBytes "u")])
      ⟨some (strBytes "proof"), some (strBytes "aud")⟩ (strBytes "proof") (strBytes "aud")
      rfl rfl).2.2.1 [(strBytes "email", strBytes "u")] (strBytes "u") rfl (by decide)⟩

/-- C5: every token whose embedded timestamp `v` satisfies
`v + timeout <= now` is rejected, whatever its signature segment holds. -/
theorem c5_expired_rejected (key : Bytes) (timeout now : Int) (s ts data sig : Bytes)
    (v : Int) (hsplit : pyRsplit2 s = some (ts, data, sig))
    (hv : pyIntHex ts = some v) (hexp : v + timeout ≤ now) :
    get_session_data key timeout now s = .ok none := by
  unfold get_session_data
  rw [hsplit]
  dsimp only
  rw [hv]
  dsimp only
  rw [if_pos hexp]

/-- C5, witness: a token with timestamp 0 checked at time 300 with the
default 300-second timeout is rejected (before any signature work). -/
theorem c5_expired_rejected_witness :
    get_session_data [] 300 300 (strBytes "0:a:b") = .ok none :=
  c5_expired_rejected [] 300 300 (strBytes "0:a:b") (strBytes "0") (strBytes "a")
    (strBytes "b") 0 (by decide) (by decide) (by decide)

/-- C6: a string that does not right-split into exactly three
colon-separated parts, or whose timestamp part is not parseable as a hex
integer, makes `get_session_data` return `None` — the `ValueError` is
caught, nothing escapes. -/
theorem c6_malformed_rejected (key : Bytes) (timeout now : Int) (s : Bytes) :
    (pyRsplit2 s = none → get_session_data key timeout now s = .ok none) ∧
    (∀ ts data sig, pyRsplit2 s = some (ts, data, sig) → pyIntHex ts = none →
      get_session_data key timeout now s = .ok none) := by
  constructor
  · intro h
    unfold get_session_data
    rw [h]
  · intro ts data sig h hts
    unfold get_session_data
    rw [h]
    dsimp only
    rw [hts]

/-- C6, witness: a colon-free string and a string with a non-hex timestamp
are both rejected. -/
theorem c6_malformed_rejected_witness :
    get_session_data [] 300 0 (strBytes "abc") = .ok none ∧
    get_session_data [] 300 0 (strBytes "gg:aa:bb") = .ok none :=
  ⟨(c6_malformed_rejected [] 300 0 (strBytes "abc")).1 (by decide),
   (c6_malformed_rejected [] 300 0 (strBytes "gg:aa:bb")).2 (strBytes "gg") (strBytes "aa")
     (strBytes "bb") (by decide) (by decide)⟩

/-- C7: a credentials record missing `assertion` or `audience` yields
`(None, None)` with zero calls to the external verifier. -/
theorem c7_missing_field_short_circuit
    (verify : Bytes → Bytes → Except PyErr (List (Bytes × Bytes))) (c : Credentials)
    (h : c.assertion = none ∨ c.audience = none) :
    check_credentials_traced verify c = (.ok (none, none), 0) := by
  obtain ⟨asr, aud⟩ := c
  cases asr <;> cases aud <;> simp_all [check_credentials_traced]

/-- C7, witness: the short circuit at a concrete record with no assertion,
against a verifier that would raise if ever called. -/
theorem c7_missing_field_witness :
    check_credentials_traced (fun _ _ => .error .otherError)
      ⟨none, some (strBytes "aud")⟩ = (.ok (none, none), 0) :=
  c7_missing_field_short_circuit (fun _ _ => .error .otherError)
    ⟨none, some (strBytes "aud")⟩ (Or.inl rfl)

/-- C8: within the `N <= 255` bound, `HKDF_expand` equals the RFC 5869
reference expansion (`T[i] = HMAC-SHA1(PRK, T[i-1] ++ info ++ byte(i))`,
blocks concatenated and truncated), and the output has exactly the
requested length.  Both sides are pure functions, so determinism on
identical inputs is inherent in the statement. -/
theorem c8_hkdf_expand_rfc (PRK info : Bytes) (L : Nat) (h : (L + 19) / 20 ≤ 255) :
    HKDF_expand PRK info L = some (hkdfRef PRK info L) ∧
    (hkdfRef PRK info L).length = L :=
  ⟨HKDF_expand_eq_ref PRK info L h, hkdfRef_length PRK info L⟩

/-- C8, witness: a 25-byte expansion (two blocks, truncated). -/
theorem c8_hkdf_expand_rfc_witness :
    HKDF_expand (strBytes "prk") (strBytes "info") 25 =
      some (hkdfRef (strBytes "prk") (strBytes "info") 25) ∧
    (hkdfRef (strBytes "prk") (strBytes "info") 25).length = 25 :=
  c8_hkdf_expand_rfc (strBytes "prk") (strBytes "info") 25 (by decide)

/-- C9: `HKDF_expand` fails (the `assert N <= 255` fires and the error
escapes the call) exactly when the requested length exceeds `255 * 20`
bytes; at or below the bound it returns normally. -/
theorem c9_hkdf_expand_bound (PRK info : Bytes) (L : Nat) :
    HKDF_expand PRK info L = none ↔ 255 * 20 < L := by
  have hdiv := Nat.div_add_mod (L + 19) 20
  unfold HKDF_expand
  by_cases h : (L + 19) / 20 ≤ 255
  · rw [if_pos h]
    simp only [reduceCtorEq, false_iff]
    omega
  · rw [if_neg h]
    simp only [true_iff]
    omega

/-- C10: every issued token has exactly two colons; the timestamp segment
is lowercase hex and the payload and signature segments are base64url
(hence colon-free), so the right-split of validation recovers exactly the
three segments issuance produced. -/
theorem c10_token_shape (key : Bytes) (t : Nat) (nonce appid userid : Bytes) :
    (new_session key t nonce appid userid).count 58 = 2 ∧
    pyRsplit2 (new_session key t nonce appid userid) =
      some (hexBytes t, session_payload nonce appid userid,
        session_sig key t nonce appid userid) ∧
    (∀ b ∈ hexBytes t, (48 ≤ b ∧ b ≤ 57) ∨ (97 ≤ b ∧ b ≤ 102)) ∧
    (∀ b ∈ session_payload nonce appid userid, b ≠ 58) ∧
    (∀ b ∈ session_sig key t nonce appid userid, b ≠ 58) := by
  have hpay : ∀ b ∈ session_payload nonce appid userid, b ≠ 58 :=
    fun b hb => b64encode_ne_colon (session_raw nonce appid userid) b hb
  have hsig : ∀ b ∈ session_sig key t nonce appid userid, b ≠ 58 :=
    fun b hb => b64encode_ne_colon (hmacMd5 key (session_sigdata t nonce appid userid)) b hb
  have htoken : new_session key t nonce appid userid =
      hexBytes t ++ 58 :: (session_payload nonce appid userid ++ 58 ::
        session_sig key t nonce appid userid) := by
    simp [new_session, session_sigdata]
  refine ⟨?_, ?_, hexBytes_mem t, hpay, hsig⟩
  · rw [htoken]
    have h1 : (hexBytes t).count 58 = 0 :=
      List.count_eq_zero.2 (fun h => hexBytes_ne_colon t 58 h rfl)
    have h2 : (session_payload nonce appid userid).count 58 = 0 :=
      List.count_eq_zero.2 (fun h => hpay 58 h rfl)
    have h3 : (session_sig key t nonce appid userid).count 58 = 0 :=
      List.count_eq_zero.2 (fun h => hsig 58 h rfl)
    simp [List.count_append, List.count_cons, h1, h2, h3]
  · rw [htoken]
    exact pyRsplit2_append _ _ _ (fun h => hpay 58 h rfl) (fun h => hsig 58 h rfl)

end Sauropod
